import Mathlib

/-!
Verification of the schedule-luck simulator in src/sim_schedules.py.

The simulator holds a table of weekly fantasy scores for N teams over W weeks.
For each focal team it enumerates every ordering of the other N-1 teams
(itertools.permutations), replays the season against each ordering with the
real scores held fixed (weeks beyond N-1 wrap cyclically), and tallies how
many orderings yield each (wins, losses, ties) record.

Modelling choices, recorded where they matter:
* team keys are Yahoo strings in Python, compared lexicographically; only a
  decidable linear order is used (memoization canonicalization), so they are
  modelled as naturals;
* scores are Python floats compared exactly; they are modelled as rationals
  with exact order and equality;
* a raised exception (pandas KeyError on a missing score, KeyError on a plain
  dict read) is modelled as the value none propagating to the caller;
* functools.cache memoizes a pure function and is semantically transparent,
  so the cached function is modelled directly.
-/

/-- Team identifier (opaque; ordered). -/
abbrev TeamId := Nat

/-- Weekly fantasy points, compared exactly. -/
abbrev Score := Rat

/-- A season record (wins, losses, ties) as produced by compute_record. -/
abbrev Record := Nat × Nat × Nat

/-- State built by ScheduleSimmer.__init__: the scores table plus the week and
team counts. A missing (team, week) entry of scores_df is none. -/
structure ScheduleSimmer where
  scores : TeamId → Nat → Option Score
  nweeks : Nat
  nteams : Nat

/-- get_week_score: scores_df.loc[(team_key, week)]['points']; none models the
KeyError pandas raises when the pair is absent. -/
def getWeekScore (scores : TeamId → Nat → Option Score) (teamKey : TeamId)
    (week : Nat) : Option Score :=
  scores teamKey week

/-- ScheduleSimmer._compute_h2h_result_cache: compare the two weekly scores
exactly; a missing score on either side aborts (none). -/
def computeH2hResultCache (S : ScheduleSimmer) (teamA teamB : TeamId)
    (weekN : Nat) : Option (Bool × Bool × Bool) :=
  match getWeekScore S.scores teamA weekN, getWeekScore S.scores teamB weekN with
  | some teamAScore, some teamBScore =>
    let teamAWin := decide (teamAScore > teamBScore)
    let teamabDraw := decide (teamAScore = teamBScore)
    let teamBWin := !(teamabDraw || teamAWin)
    some (teamAWin, teamBWin, teamabDraw)
  | _, _ => none

/-- ScheduleSimmer.compute_h2h_result: canonicalize the pair to sorted order
before consulting the cached comparison, swapping the answer back. -/
def computeH2hResult (S : ScheduleSimmer) (teamA teamB : TeamId)
    (weekN : Nat) : Option (Bool × Bool × Bool) :=
  if teamB < teamA then
    match computeH2hResultCache S teamB teamA weekN with
    | some (x0, x1, x2) => some (x1, x0, x2)
    | none => none
  else
    computeH2hResultCache S teamA teamB weekN

/-- One iteration of the week loop inside ScheduleSimmer.compute_record:
week (weekIdx+1) is played against schedule[weekIdx % (nteams-1)] and the
boolean outcome triple is added onto the running (wins, losses, ties). -/
def weekStep (S : ScheduleSimmer) (teamKey : TeamId) (schedule : List TeamId)
    (acc : Option Record) (weekIdx : Nat) : Option Record :=
  match acc with
  | none => none
  | some (nWin, nLoss, nDraw) =>
    match schedule.get? (weekIdx % (S.nteams - 1)) with
    | none => none
    | some otherTeamKey =>
      match computeH2hResult S teamKey otherTeamKey (weekIdx + 1) with
      | none => none
      | some (winI, lossI, drawI) =>
        some (nWin + winI.toNat, nLoss + lossI.toNat, nDraw + drawI.toNat)

/-- ScheduleSimmer.compute_record. Python raises ZeroDivisionError when
nteams = 1 and nweeks ≥ 1; every call site passes a schedule of length
nteams - 1, where the model's out-of-range lookup is likewise abnormal
(none). -/
def computeRecord (S : ScheduleSimmer) (teamKey : TeamId)
    (schedule : List TeamId) : Option Record :=
  (List.range S.nweeks).foldl (weekStep S teamKey schedule) (some (0, 0, 0))

/-- Opponent faced in 1-based week w: schedule[(w-1) % (nteams-1)]. -/
def opponentOfWeek (S : ScheduleSimmer) (schedule : List TeamId)
    (weekNum : Nat) : Option TeamId :=
  schedule.get? ((weekNum - 1) % (S.nteams - 1))

/-- Week step of compute_record rephrased over 1-based week numbers, drawing
the opponent through opponentOfWeek. -/
def weekStepNum (S : ScheduleSimmer) (teamKey : TeamId) (schedule : List TeamId)
    (acc : Option Record) (weekNum : Nat) : Option Record :=
  match acc with
  | none => none
  | some (nWin, nLoss, nDraw) =>
    match opponentOfWeek S schedule weekNum with
    | none => none
    | some otherTeamKey =>
      match computeH2hResult S teamKey otherTeamKey weekNum with
      | none => none
      | some (winI, lossI, drawI) =>
        some (nWin + winI.toNat, nLoss + lossI.toNat, nDraw + drawI.toNat)

/-- compute_record reformulated over 1-based weeks 1..nweeks. -/
def computeRecordWeeks (S : ScheduleSimmer) (teamKey : TeamId)
    (schedule : List TeamId) : Option Record :=
  (List.range S.nweeks).foldl
    (fun acc weekIdx => weekStepNum S teamKey schedule acc (weekIdx + 1))
    (some (0, 0, 0))

/-- All ways to pick one element of a list, paired with the remaining elements
in their original order; helper for the permutation enumerator. -/
def selections {α : Type} : List α → List (α × List α)
  | [] => []
  | a :: l => (a, l) :: (selections l).map (fun p => (p.1, a :: p.2))

/-- Fuelled enumeration of all permutations: pick each element in turn as the
head, recurse on the rest. With fuel ≥ length this emits every ordering in
the lexicographic-by-position order used by itertools.permutations. -/
def permsAux {α : Type} : Nat → List α → List (List α)
  | _, [] => [[]]
  | 0, _ :: _ => []
  | n + 1, a :: l =>
    (selections (a :: l)).flatMap (fun p => (permsAux n p.2).map (fun s => p.1 :: s))

/-- itertools.permutations of a list, in emission order. -/
def lexPerms {α : Type} (l : List α) : List (List α) := permsAux l.length l

/-- permute_schedules: copy the team list, drop the first occurrence of the
focal team, return all permutations of the rest. Python list.remove raises
ValueError when the team is absent; every call site passes a member. -/
def permuteSchedules (teamid : TeamId) (allteamids : List TeamId) :
    List (List TeamId) :=
  lexPerms (allteamids.erase teamid)

/-- A Python dict from Record to int: the insertion-ordered key list plus the
stored counts. cnt r is the stored value for r ∈ keys; reads of absent keys
on a defaultdict(int) yield 0, matching cnt there as well. -/
structure CountDict where
  keys : List Record
  cnt : Record → Nat

/-- defaultdict(int)() with no entries. -/
def CountDict.empty : CountDict := ⟨[], fun _ => 0⟩

/-- d[record] += 1 on a defaultdict(int): reading a missing key first inserts
it (at the end) with default 0, then the count is bumped. -/
def CountDict.incr (d : CountDict) (r : Record) : CountDict :=
  ⟨if r ∈ d.keys then d.keys else d.keys ++ [r],
   fun x => if x = r then d.cnt r + 1 else d.cnt x⟩

/-- A bare d[record] read on a defaultdict(int): inserts a missing key with
value 0 and leaves every count unchanged. -/
def CountDict.touch (d : CountDict) (r : Record) : CountDict :=
  ⟨if r ∈ d.keys then d.keys else d.keys ++ [r], d.cnt⟩

/-- Sum of the counts stored under the dict's keys. -/
def CountDict.sumCounts (d : CountDict) : Nat := (d.keys.map d.cnt).sum

/-- print_records_dict on a defaultdict(int): the first loop reads only
existing keys; the second loop reads d[(nwins, nweeks - nwins, 0)] for every
nwins in 0..nweeks, inserting each missing zero-tie key with count 0. The
console output is irrelevant; the dict mutation is the semantic effect. -/
def printRecordsDict (d : CountDict) (nweeks : Nat) : CountDict :=
  (List.range (nweeks + 1)).foldl
    (fun d nwins => d.touch (nwins, nweeks - nwins, 0)) d

/-- Inner loop of simulate_all_schedules for one focal team: compute each
schedule's record in enumeration order and bump its count; none models the
exception aborting the whole simulation when a score lookup fails. -/
def aggregateRecords (S : ScheduleSimmer) (teamKey : TeamId) :
    List (List TeamId) → CountDict → Option CountDict
  | [], d => some d
  | sched :: rest, d =>
    match computeRecord S teamKey sched with
    | none => none
    | some r => aggregateRecords S teamKey rest (d.incr r)

/-- list(p.imap(functools.partial(self.compute_record, team_i_key), scheds)):
records of all schedules in enumeration order; none models a worker
exception propagating out of the pool. -/
def computeRecordsList (S : ScheduleSimmer) (teamKey : TeamId) :
    List (List TeamId) → Option (List Record)
  | [] => some []
  | sched :: rest =>
    match computeRecord S teamKey sched, computeRecordsList S teamKey rest with
    | some r, some rs => some (r :: rs)
    | _, _ => none

/-- The all_records Python dict: team keys in insertion order, each with its
per-team record dict. -/
abbrev AllRecords := List (TeamId × CountDict)

/-- Dict read all_records[t]. -/
def assocGet (m : AllRecords) (t : TeamId) : Option CountDict :=
  match m with
  | [] => none
  | (k, d) :: rest => if k = t then some d else assocGet rest t

/-- Dict assignment all_records[t] = d: replaces in place when the key exists,
appends otherwise. -/
def assocUpdate (m : AllRecords) (t : TeamId) (d : CountDict) : AllRecords :=
  match m with
  | [] => [(t, d)]
  | (k, e) :: rest =>
    if k = t then (t, d) :: rest else (k, e) :: assocUpdate rest t d

/-- Dict comprehension mapping each team key to a fresh empty defaultdict;
a duplicated key is simply assigned again. -/
def dictInit (teamKeys : List TeamId) : AllRecords :=
  teamKeys.foldl (fun m t => assocUpdate m t CountDict.empty) []

/-- Body of the per-team loop in simulate_all_schedules: read the team's dict,
aggregate all permuted schedules into it, apply print_records_dict (whose
reads pad missing zero-tie records into the defaultdict), store it back. -/
def simStep (S : ScheduleSimmer) (teamKeys : List TeamId) (m : AllRecords)
    (t : TeamId) : Option AllRecords :=
  match assocGet m t with
  | none => none
  | some d0 =>
    match aggregateRecords S t (permuteSchedules t teamKeys) d0 with
    | none => none
    | some d1 => some (assocUpdate m t (printRecordsDict d1 S.nweeks))

/-- The team loop of simulate_all_schedules. -/
def simLoop (S : ScheduleSimmer) (teamKeys : List TeamId) :
    List TeamId → AllRecords → Option AllRecords
  | [], m => some m
  | t :: pending, m =>
    match simStep S teamKeys m t with
    | none => none
    | some m1 => simLoop S teamKeys pending m1

/-- ScheduleSimmer.simulate_all_schedules. -/
def simulateAllSchedules (S : ScheduleSimmer) (teamKeys : List TeamId) :
    Option AllRecords :=
  simLoop S teamKeys teamKeys (dictInit teamKeys)

/-- Body of the per-team loop in simulate_all_schedules_poolseasons: the pool
computes all records in enumeration order, the distribution is rebuilt as a
plain dict of counts keyed by the distinct records, and print_records_dict
then reads every zero-tie record from that plain dict, raising KeyError
(none) whenever one of them was never produced. -/
def poolStep (S : ScheduleSimmer) (teamKeys : List TeamId) (m : AllRecords)
    (t : TeamId) : Option AllRecords :=
  match computeRecordsList S t (permuteSchedules t teamKeys) with
  | none => none
  | some recs =>
    if (List.range (S.nweeks + 1)).all
        (fun nwins => decide ((nwins, S.nweeks - nwins, 0) ∈ recs)) then
      some (assocUpdate m t ⟨recs.dedup, fun r => recs.count r⟩)
    else
      none

/-- The team loop of simulate_all_schedules_poolseasons. -/
def poolLoop (S : ScheduleSimmer) (teamKeys : List TeamId) :
    List TeamId → AllRecords → Option AllRecords
  | [], m => some m
  | t :: pending, m =>
    match poolStep S teamKeys m t with
    | none => none
    | some m1 => poolLoop S teamKeys pending m1

/-- ScheduleSimmer.simulate_all_schedules_poolseasons. -/
def simulateAllSchedulesPoolseasons (S : ScheduleSimmer)
    (teamKeys : List TeamId) : Option AllRecords :=
  poolLoop S teamKeys teamKeys (dictInit teamKeys)

/-- Number of schedules whose record computation succeeds before the first
failing one, in enumeration order: the work simulate_all_schedules completes
for a team before a missing score aborts it. -/
def processedBeforeError (S : ScheduleSimmer) (teamKey : TeamId)
    (teamKeys : List TeamId) : Nat :=
  ((permuteSchedules teamKey teamKeys).takeWhile
    (fun sched => (computeRecord S teamKey sched).isSome)).length

/-- Validity of the scores table for a team list: every listed team has a
score for every week in 1..nweeks. -/
def ScoresTotal (S : ScheduleSimmer) (teamKeys : List TeamId) : Prop :=
  ∀ t ∈ teamKeys, ∀ w, 1 ≤ w → w ≤ S.nweeks → (S.scores t w).isSome

/-- Example league: three teams with constant weekly scores 3, 2, 1. -/
def exScores : TeamId → Nat → Option Score :=
  fun t _ => some (if t = 0 then 3 else if t = 1 then 2 else 1)

/-- Example simmer over exScores with one week and three teams. -/
def exSimmer : ScheduleSimmer := ⟨exScores, 1, 3⟩

/-- Example team list. -/
def exKeys : List TeamId := [0, 1, 2]

/-- Example scores table with a hole: team 2 has no scores at all. -/
def exScoresMissing : TeamId → Nat → Option Score :=
  fun t w => if t = 2 then none else exScores t w

/-- Example simmer whose scores table has a hole. -/
def exSimmerMissing : ScheduleSimmer := ⟨exScoresMissing, 1, 3⟩

/-- Team list containing a duplicated identifier (three entries, two teams). -/
def exKeysDup : List TeamId := [0, 0, 1]

theorem computeH2hResultCache_eq (S : ScheduleSimmer) (a b : TeamId) (w : Nat)
    (sa sb : Score) (ha : S.scores a w = some sa) (hb : S.scores b w = some sb) :
    computeH2hResultCache S a b w =
      some (decide (sa > sb), !(decide (sa = sb) || decide (sa > sb)), decide (sa = sb)) := by
  unfold computeH2hResultCache getWeekScore
  rw [ha, hb]

theorem bnot_or_decide_eq (sa sb : Score) :
    (!(decide (sa = sb) || decide (sa > sb))) = decide (sa < sb) := by
  rcases lt_trichotomy sa sb with h | h | h
  · simp [h, h.ne, h.asymm]
  · simp [h]
  · simp [h, h.ne', h.asymm]

theorem computeH2hResult_eq (S : ScheduleSimmer) (a b : TeamId) (w : Nat)
    (sa sb : Score) (ha : S.scores a w = some sa) (hb : S.scores b w = some sb) :
    computeH2hResult S a b w =
      some (decide (sb < sa), decide (sa < sb), decide (sa = sb)) := by
  unfold computeH2hResult
  by_cases h : b < a
  · rw [if_pos h, computeH2hResultCache_eq S b a w sb sa hb ha]
    rw [bnot_or_decide_eq]
    simp only [gt_iff_lt]
    rw [show (decide (sb = sa)) = decide (sa = sb) by simp [eq_comm]]
  · rw [if_neg h, computeH2hResultCache_eq S a b w sa sb ha hb]
    rw [bnot_or_decide_eq]

theorem computeH2hResult_one (S : ScheduleSimmer) (a b : TeamId) (w : Nat)
    (ha : (S.scores a w).isSome) (hb : (S.scores b w).isSome) :
    ∃ x y z : Bool, computeH2hResult S a b w = some (x, y, z) ∧
      x.toNat + y.toNat + z.toNat = 1 := by
  obtain ⟨sa, ha⟩ := Option.isSome_iff_exists.mp ha
  obtain ⟨sb, hb⟩ := Option.isSome_iff_exists.mp hb
  refine ⟨_, _, _, computeH2hResult_eq S a b w sa sb ha hb, ?_⟩
  rcases lt_trichotomy sa sb with h | h | h
  · simp [h, h.ne, h.asymm]
  · simp [h]
  · simp [h, h.ne', h.asymm]

theorem mem_selections {α : Type} {l : List α} {p : α × List α} :
    p ∈ selections l ↔ ∃ l1 l2, l = l1 ++ p.1 :: l2 ∧ p.2 = l1 ++ l2 := by
  induction l generalizing p with
  | nil => simp [selections]
  | cons a l ih =>
    simp only [selections, List.mem_cons, List.mem_map]
    constructor
    · rintro (rfl | ⟨q, hq, rfl⟩)
      · exact ⟨[], l, rfl, rfl⟩
      · obtain ⟨l1, l2, h1, h2⟩ := ih.mp hq
        exact ⟨a :: l1, l2, by simp [h1], by simp [h2]⟩
    · rintro ⟨l1, l2, h1, h2⟩
      cases l1 with
      | nil =>
        left
        simp only [List.nil_append] at h1 h2
        cases h1
        cases p
        simp_all
      | cons x l1 =>
        right
        simp only [List.cons_append, List.cons.injEq] at h1
        obtain ⟨rfl, h1⟩ := h1
        refine ⟨(p.1, l1 ++ l2), ih.mpr ⟨l1, l2, h1, rfl⟩, ?_⟩
        cases p
        simp_all

theorem selections_fst_mem {α : Type} {l : List α} {p : α × List α}
    (h : p ∈ selections l) : p.1 ∈ l := by
  obtain ⟨l1, l2, h1, _⟩ := mem_selections.mp h
  subst h1
  simp

theorem selections_cons_perm {α : Type} {l : List α} {p : α × List α}
    (h : p ∈ selections l) : (p.1 :: p.2).Perm l := by
  obtain ⟨l1, l2, h1, h2⟩ := mem_selections.mp h
  subst h1
  rw [h2]
  exact List.perm_middle.symm

theorem selections_length {α : Type} (l : List α) :
    (selections l).length = l.length := by
  induction l with
  | nil => rfl
  | cons a l ih => simp [selections, ih]

theorem selections_snd_length {α : Type} {l : List α} {p : α × List α}
    (h : p ∈ selections l) : p.2.length + 1 = l.length := by
  have := (selections_cons_perm h).length_eq
  simpa using this

theorem selections_pairwise_ne {α : Type} {l : List α} (h : l.Nodup) :
    (selections l).Pairwise (fun p q => p.1 ≠ q.1) := by
  induction l with
  | nil => simp [selections]
  | cons a l ih =>
    obtain ⟨ha, hl⟩ := List.nodup_cons.mp h
    rw [selections, List.pairwise_cons]
    constructor
    · rintro q hq
      simp only [List.mem_map] at hq
      obtain ⟨q0, hq0, rfl⟩ := hq
      intro hcontra
      have haq : a = q0.1 := hcontra
      exact ha (by rw [haq]; exact selections_fst_mem hq0)
    · rw [List.pairwise_map]
      exact (ih hl).imp (fun hne => hne)

theorem length_permsAux {α : Type} :
    ∀ (n : Nat) (l : List α), l.length ≤ n →
      (permsAux n l).length = Nat.factorial l.length := by
  intro n
  induction n with
  | zero =>
    intro l hl
    rw [Nat.le_zero, List.length_eq_zero] at hl
    subst hl
    rfl
  | succ n ih =>
    intro l hl
    cases l with
    | nil => rfl
    | cons a l =>
      rw [permsAux, List.length_flatMap]
      have hconst : ∀ p ∈ selections (a :: l),
          ((permsAux n p.2).map (fun s => p.1 :: s)).length = Nat.factorial l.length := by
        intro p hp
        have hlen : p.2.length + 1 = l.length + 1 := by
          simpa using selections_snd_length hp
        have hlen2 : p.2.length = l.length := by omega
        have hle : p.2.length ≤ n := by
          simp only [List.length_cons] at hl
          omega
        rw [List.length_map, ih p.2 hle, hlen2]
      calc ((selections (a :: l)).map
              (fun p => ((permsAux n p.2).map (fun s => p.1 :: s)).length)).sum
          = ((selections (a :: l)).map (fun _ => Nat.factorial l.length)).sum := by
            rw [List.map_congr_left hconst]
        _ = (selections (a :: l)).length * Nat.factorial l.length := by
            rw [List.map_const', List.sum_replicate, smul_eq_mul]
        _ = Nat.factorial (a :: l).length := by
            rw [selections_length]
            simp [Nat.factorial_succ]

theorem mem_permsAux {α : Type} :
    ∀ (n : Nat) (l s : List α), l.length ≤ n →
      (s ∈ permsAux n l ↔ s.Perm l) := by
  intro n
  induction n with
  | zero =>
    intro l s hl
    rw [Nat.le_zero, List.length_eq_zero] at hl
    subst hl
    simp [permsAux, List.perm_nil]
  | succ n ih =>
    intro l s hl
    cases l with
    | nil => simp [permsAux, List.perm_nil]
    | cons a l =>
      rw [permsAux]
      simp only [List.mem_flatMap, List.mem_map]
      constructor
      · rintro ⟨p, hp, s0, hs0, rfl⟩
        have hle : p.2.length ≤ n := by
          have := selections_snd_length hp
          simp only [List.length_cons] at hl this
          omega
        have h2 : s0.Perm p.2 := (ih p.2 s0 hle).mp hs0
        exact (h2.cons p.1).trans (selections_cons_perm hp)
      · intro hs
        cases s with
        | nil =>
          have := hs.length_eq
          simp at this
        | cons b s0 =>
          have hb : b ∈ a :: l := hs.subset (List.mem_cons_self b s0)
          obtain ⟨l1, l2, hsplit⟩ := List.append_of_mem hb
          have hp : (b, l1 ++ l2) ∈ selections (a :: l) :=
            mem_selections.mpr ⟨l1, l2, hsplit, rfl⟩
          refine ⟨(b, l1 ++ l2), hp, s0, ?_, rfl⟩
          have hlen : (l1 ++ l2).length ≤ n := by
            have := selections_snd_length hp
            simp only [List.length_cons] at hl this
            omega
          apply (ih _ s0 hlen).mpr
          have hmid : (b :: s0).Perm (b :: (l1 ++ l2)) :=
            hs.trans (by rw [hsplit]; exact List.perm_middle)
          exact hmid.cons_inv

theorem nodup_permsAux {α : Type} :
    ∀ (n : Nat) (l : List α), l.length ≤ n → l.Nodup →
      (permsAux n l).Nodup := by
  intro n
  induction n with
  | zero =>
    intro l hl _
    rw [Nat.le_zero, List.length_eq_zero] at hl
    subst hl
    simp [permsAux]
  | succ n ih =>
    intro l hl hnd
    cases l with
    | nil => simp [permsAux]
    | cons a l =>
      rw [permsAux, List.nodup_flatMap]
      constructor
      · intro p hp
        apply List.Nodup.map
        · intro s t hst
          injection hst
        · have hle : p.2.length ≤ n := by
            have := selections_snd_length hp
            simp only [List.length_cons] at hl this
            omega
          have hpnd : p.2.Nodup :=
            (List.nodup_cons.mp ((selections_cons_perm hp).nodup_iff.mpr hnd)).2
          exact ih p.2 hle hpnd
      · apply (selections_pairwise_ne hnd).imp
        intro p q hne
        intro s hs1 hs2
        simp only [List.mem_map] at hs1 hs2
        obtain ⟨s1, _, rfl⟩ := hs1
        obtain ⟨s2, _, heq⟩ := hs2
        apply hne
        injection heq with h1 _
        exact h1.symm

theorem lexPerms_length {α : Type} (l : List α) :
    (lexPerms l).length = Nat.factorial l.length :=
  length_permsAux l.length l le_rfl

theorem mem_lexPerms {α : Type} {l s : List α} :
    s ∈ lexPerms l ↔ s.Perm l :=
  mem_permsAux l.length l s le_rfl

theorem lexPerms_nodup {α : Type} {l : List α} (h : l.Nodup) :
    (lexPerms l).Nodup :=
  nodup_permsAux l.length l le_rfl h

theorem permuteSchedules_length (teamid : TeamId) (allteamids : List TeamId)
    (h : teamid ∈ allteamids) :
    (permuteSchedules teamid allteamids).length =
      Nat.factorial (allteamids.length - 1) := by
  rw [permuteSchedules, lexPerms_length, List.length_erase_of_mem h]

theorem mem_permuteSchedules {teamid : TeamId} {allteamids : List TeamId}
    {s : List TeamId} :
    s ∈ permuteSchedules teamid allteamids ↔ s.Perm (allteamids.erase teamid) :=
  mem_lexPerms

theorem permuteSchedules_nodup {teamid : TeamId} {allteamids : List TeamId}
    (h : allteamids.Nodup) : (permuteSchedules teamid allteamids).Nodup :=
  lexPerms_nodup (h.erase teamid)

theorem recordFold_sum (S : ScheduleSimmer) (teamKey : TeamId)
    (schedule : List TeamId) :
    ∀ (n : Nat) (w0 l0 d0 : Nat),
      (∀ i, i < n → ∃ opp, schedule.get? (i % (S.nteams - 1)) = some opp ∧
        ∃ x y z : Bool, computeH2hResult S teamKey opp (i + 1) = some (x, y, z) ∧
          x.toNat + y.toNat + z.toNat = 1) →
      ∃ w l d : Nat,
        (List.range n).foldl (weekStep S teamKey schedule) (some (w0, l0, d0)) =
          some (w, l, d) ∧ w + l + d = w0 + l0 + d0 + n := by
  intro n
  induction n with
  | zero =>
    intro w0 l0 d0 _
    exact ⟨w0, l0, d0, rfl, by omega⟩
  | succ n ih =>
    intro w0 l0 d0 hstep
    obtain ⟨w, l, d, hfold, hsum⟩ :=
      ih w0 l0 d0 (fun i hi => hstep i (by omega))
    obtain ⟨opp, hopp, x, y, z, hh2h, hone⟩ := hstep n (by omega)
    refine ⟨w + x.toNat, l + y.toNat, d + z.toNat, ?_, by omega⟩
    rw [List.range_succ, List.foldl_append, hfold]
    simp only [List.foldl_cons, List.foldl_nil, weekStep, hopp, hh2h]

theorem computeRecord_total (S : ScheduleSimmer) (teamKey : TeamId)
    (schedule : List TeamId) (hN : 2 ≤ S.nteams)
    (hlen : schedule.length = S.nteams - 1)
    (hsT : ∀ w, 1 ≤ w → w ≤ S.nweeks → (S.scores teamKey w).isSome)
    (hsO : ∀ opp ∈ schedule, ∀ w, 1 ≤ w → w ≤ S.nweeks → (S.scores opp w).isSome) :
    ∃ w l d : Nat, computeRecord S teamKey schedule = some (w, l, d) ∧
      w + l + d = S.nweeks := by
  have hstep : ∀ i, i < S.nweeks →
      ∃ opp, schedule.get? (i % (S.nteams - 1)) = some opp ∧
        ∃ x y z : Bool, computeH2hResult S teamKey opp (i + 1) = some (x, y, z) ∧
          x.toNat + y.toNat + z.toNat = 1 := by
    intro i hi
    have hidx : i % (S.nteams - 1) < schedule.length := by
      rw [hlen]
      exact Nat.mod_lt _ (by omega)
    refine ⟨schedule.get ⟨_, hidx⟩, List.get?_eq_get hidx, ?_⟩
    exact computeH2hResult_one S teamKey _ (i + 1)
      (hsT (i + 1) (by omega) (by omega))
      (hsO _ (List.get_mem schedule _ hidx) (i + 1) (by omega) (by omega))
  obtain ⟨w, l, d, hfold, hsum⟩ :=
    recordFold_sum S teamKey schedule S.nweeks 0 0 0 hstep
  exact ⟨w, l, d, hfold, by omega⟩

theorem weekStep_eq_weekStepNum (S : ScheduleSimmer) (teamKey : TeamId)
    (schedule : List TeamId) (acc : Option Record) (weekIdx : Nat) :
    weekStep S teamKey schedule acc weekIdx =
      weekStepNum S teamKey schedule acc (weekIdx + 1) := by
  simp only [weekStep, weekStepNum, opponentOfWeek, Nat.add_sub_cancel]

theorem computeRecord_eq_weeks (S : ScheduleSimmer) (teamKey : TeamId)
    (schedule : List TeamId) :
    computeRecord S teamKey schedule = computeRecordWeeks S teamKey schedule := by
  unfold computeRecord computeRecordWeeks
  apply List.foldl_ext
  intro acc i _
  exact weekStep_eq_weekStepNum S teamKey schedule acc i

/-- Zero-tie records (nwins, nweeks - nwins, 0) read back by the completeness
listing of print_records_dict. -/
def zeroTieRecords (nweeks : Nat) : List Record :=
  (List.range (nweeks + 1)).map (fun nwins => (nwins, nweeks - nwins, 0))

theorem printRecordsDict_eq_touch_fold (d : CountDict) (nweeks : Nat) :
    printRecordsDict d nweeks = (zeroTieRecords nweeks).foldl CountDict.touch d := by
  unfold printRecordsDict zeroTieRecords
  rw [List.foldl_map]

theorem incr_fold_cnt (recs : List Record) :
    ∀ (d0 : CountDict) (r : Record),
      (recs.foldl CountDict.incr d0).cnt r = d0.cnt r + recs.count r := by
  induction recs with
  | nil => simp
  | cons a recs ih =>
    intro d0 r
    rw [List.foldl_cons, ih, List.count_cons]
    by_cases h : r = a
    · subst h
      simp [CountDict.incr]
      omega
    · simp [CountDict.incr, h, Ne.symm h]

theorem incr_fold_keys (recs : List Record) :
    ∀ (d0 : CountDict) (r : Record),
      (r ∈ (recs.foldl CountDict.incr d0).keys ↔ r ∈ d0.keys ∨ r ∈ recs) := by
  induction recs with
  | nil => simp
  | cons a recs ih =>
    intro d0 r
    rw [List.foldl_cons, ih]
    by_cases ha : a ∈ d0.keys
    · simp only [CountDict.incr, if_pos ha, List.mem_cons]
      constructor
      · rintro (h | h)
        · exact Or.inl h
        · exact Or.inr (Or.inr h)
      · rintro (h | rfl | h)
        · exact Or.inl h
        · exact Or.inl ha
        · exact Or.inr h
    · simp only [CountDict.incr, if_neg ha, List.mem_append, List.mem_singleton,
        List.mem_cons]
      tauto

theorem incr_fold_keys_nodup (recs : List Record) :
    ∀ (d0 : CountDict), d0.keys.Nodup → (recs.foldl CountDict.incr d0).keys.Nodup := by
  induction recs with
  | nil => intro d0 h; exact h
  | cons a recs ih =>
    intro d0 h
    rw [List.foldl_cons]
    apply ih
    by_cases ha : a ∈ d0.keys
    · simpa [CountDict.incr, ha] using h
    · simp only [CountDict.incr, if_neg ha]
      exact (List.perm_append_singleton a d0.keys).nodup_iff.mpr
        (List.nodup_cons.mpr ⟨ha, h⟩)

theorem touch_fold_cnt (pads : List Record) :
    ∀ (d0 : CountDict), (pads.foldl CountDict.touch d0).cnt = d0.cnt := by
  induction pads with
  | nil => intro d0; rfl
  | cons a pads ih =>
    intro d0
    rw [List.foldl_cons, ih]
    rfl

theorem touch_fold_keys (pads : List Record) :
    ∀ (d0 : CountDict) (r : Record),
      (r ∈ (pads.foldl CountDict.touch d0).keys ↔ r ∈ d0.keys ∨ r ∈ pads) := by
  induction pads with
  | nil => simp
  | cons a pads ih =>
    intro d0 r
    rw [List.foldl_cons, ih]
    by_cases ha : a ∈ d0.keys
    · simp only [CountDict.touch, if_pos ha, List.mem_cons]
      constructor
      · rintro (h | h)
        · exact Or.inl h
        · exact Or.inr (Or.inr h)
      · rintro (h | rfl | h)
        · exact Or.inl h
        · exact Or.inl ha
        · exact Or.inr h
    · simp only [CountDict.touch, if_neg ha, List.mem_append, List.mem_singleton,
        List.mem_cons]
      tauto

theorem touch_fold_keys_nodup (pads : List Record) :
    ∀ (d0 : CountDict), d0.keys.Nodup → (pads.foldl CountDict.touch d0).keys.Nodup := by
  induction pads with
  | nil => intro d0 h; exact h
  | cons a pads ih =>
    intro d0 h
    rw [List.foldl_cons]
    apply ih
    by_cases ha : a ∈ d0.keys
    · simpa [CountDict.touch, ha] using h
    · simp only [CountDict.touch, if_neg ha]
      exact (List.perm_append_singleton a d0.keys).nodup_iff.mpr
        (List.nodup_cons.mpr ⟨ha, h⟩)

theorem count_record_eq (r : Record) (recs : List Record) :
    recs.count r = @List.count Record instBEqOfDecidableEq r recs := by
  induction recs with
  | nil => rfl
  | cons a recs ih =>
    rw [List.count_cons, @List.count_cons Record instBEqOfDecidableEq, ih]
    by_cases h : a = r <;> simp [instBEqOfDecidableEq, h]

theorem sumCounts_eq_length (d : CountDict) (recs : List Record)
    (hcnt : ∀ r, d.cnt r = recs.count r)
    (hkeys : ∀ r ∈ recs, r ∈ d.keys) (hnd : d.keys.Nodup) :
    d.sumCounts = recs.length := by
  unfold CountDict.sumCounts
  have h1 : d.keys.map d.cnt = d.keys.map recs.count :=
    List.map_congr_left (fun r _ => hcnt r)
  rw [h1, ← List.sum_toFinset _ hnd]
  have hsub : recs.toFinset ⊆ d.keys.toFinset := by
    intro r hr
    exact List.mem_toFinset.mpr (hkeys r (List.mem_toFinset.mp hr))
  have hzero : ∀ r ∈ d.keys.toFinset, r ∉ recs.toFinset → recs.count r = 0 := by
    intro r _ hr
    exact List.count_eq_zero.mpr (fun hc => hr (List.mem_toFinset.mpr hc))
  rw [← Finset.sum_subset hsub hzero]
  calc ∑ r ∈ recs.toFinset, recs.count r
      = ∑ r ∈ recs.toFinset, @List.count Record instBEqOfDecidableEq r recs :=
        Finset.sum_congr rfl (fun r _ => count_record_eq r recs)
    _ = recs.length := List.sum_toFinset_count_eq_length recs

theorem aggregateRecords_eq_fold (S : ScheduleSimmer) (teamKey : TeamId) :
    ∀ (scheds : List (List TeamId)) (recs : List Record) (d0 : CountDict),
      computeRecordsList S teamKey scheds = some recs →
      aggregateRecords S teamKey scheds d0 = some (recs.foldl CountDict.incr d0) := by
  intro scheds
  induction scheds with
  | nil =>
    intro recs d0 h
    simp only [computeRecordsList, Option.some.injEq] at h
    subst h
    rfl
  | cons sched rest ih =>
    intro recs d0 h
    rw [computeRecordsList] at h
    cases hr : computeRecord S teamKey sched with
    | none => rw [hr] at h; exact absurd h (by simp)
    | some r =>
      rw [hr] at h
      cases hrest : computeRecordsList S teamKey rest with
      | none => rw [hrest] at h; exact absurd h (by simp)
      | some rs =>
        rw [hrest] at h
        simp only [Option.some.injEq] at h
        subst h
        rw [aggregateRecords, hr]
        show aggregateRecords S teamKey rest (d0.incr r) = _
        rw [ih rs (d0.incr r) hrest, List.foldl_cons]

theorem computeRecordsList_isSome (S : ScheduleSimmer) (teamKey : TeamId) :
    ∀ (scheds : List (List TeamId)),
      (∀ sched ∈ scheds, (computeRecord S teamKey sched).isSome) →
      ∃ recs, computeRecordsList S teamKey scheds = some recs ∧
        recs.length = scheds.length := by
  intro scheds
  induction scheds with
  | nil => intro _; exact ⟨[], rfl, rfl⟩
  | cons sched rest ih =>
    intro h
    obtain ⟨r, hr⟩ := Option.isSome_iff_exists.mp (h sched (by simp))
    obtain ⟨rs, hrs, hlen⟩ := ih (fun s hs => h s (by simp [hs]))
    refine ⟨r :: rs, ?_, by simp [hlen]⟩
    rw [computeRecordsList, hr, hrs]

theorem computeRecordsList_none (S : ScheduleSimmer) (teamKey : TeamId) :
    ∀ (scheds : List (List TeamId)) (sched : List TeamId), sched ∈ scheds →
      computeRecord S teamKey sched = none →
      computeRecordsList S teamKey scheds = none := by
  intro scheds
  induction scheds with
  | nil => intro sched h; exact absurd h (by simp)
  | cons s rest ih =>
    intro sched hmem hnone
    rcases List.mem_cons.mp hmem with rfl | hmem
    · rw [computeRecordsList, hnone]
    · rw [computeRecordsList, ih sched hmem hnone]
      cases computeRecord S teamKey s <;> rfl

theorem aggregateRecords_none (S : ScheduleSimmer) (teamKey : TeamId) :
    ∀ (scheds : List (List TeamId)) (d0 : CountDict),
      computeRecordsList S teamKey scheds = none →
      aggregateRecords S teamKey scheds d0 = none := by
  intro scheds
  induction scheds with
  | nil => intro d0 h; exact absurd h (by simp [computeRecordsList])
  | cons sched rest ih =>
    intro d0 h
    rw [computeRecordsList] at h
    cases hr : computeRecord S teamKey sched with
    | none => rw [aggregateRecords, hr]
    | some r =>
      rw [hr] at h
      cases hrest : computeRecordsList S teamKey rest with
      | none => rw [aggregateRecords, hr]; exact ih (d0.incr r) hrest
      | some rs => rw [hrest] at h; exact absurd h (by simp)

theorem mem_computeRecordsList (S : ScheduleSimmer) (teamKey : TeamId) :
    ∀ (scheds : List (List TeamId)) (recs : List Record),
      computeRecordsList S teamKey scheds = some recs →
      ∀ r : Record,
        (r ∈ recs ↔ ∃ sched ∈ scheds, computeRecord S teamKey sched = some r) := by
  intro scheds
  induction scheds with
  | nil =>
    intro recs h r
    simp only [computeRecordsList, Option.some.injEq] at h
    subst h
    simp
  | cons sched rest ih =>
    intro recs h r
    rw [computeRecordsList] at h
    cases hr : computeRecord S teamKey sched with
    | none => rw [hr] at h; exact absurd h (by simp)
    | some r0 =>
      rw [hr] at h
      cases hrest : computeRecordsList S teamKey rest with
      | none => rw [hrest] at h; exact absurd h (by simp)
      | some rs =>
        rw [hrest] at h
        simp only [Option.some.injEq] at h
        subst h
        simp only [List.mem_cons, ih rs hrest r]
        constructor
        · rintro (rfl | ⟨s, hs, hsr⟩)
          · exact ⟨sched, by simp, hr⟩
          · exact ⟨s, by simp [hs], hsr⟩
        · rintro ⟨s, hs, hsr⟩
          rcases hs with rfl | hs
          · left
            rw [hr] at hsr
            exact (Option.some.injEq _ _).mp hsr.symm
          · right
            exact ⟨s, hs, hsr⟩

theorem assocGet_update_self (m : AllRecords) (t : TeamId) (d : CountDict) :
    assocGet (assocUpdate m t d) t = some d := by
  induction m with
  | nil => simp [assocUpdate, assocGet]
  | cons p m ih =>
    obtain ⟨k, e⟩ := p
    rw [assocUpdate]
    by_cases h : k = t
    · rw [if_pos h, assocGet, if_pos rfl]
    · rw [if_neg h, assocGet, if_neg h]
      exact ih

theorem assocGet_update_other (m : AllRecords) (t : TeamId) (d : CountDict)
    (u : TeamId) (h : u ≠ t) :
    assocGet (assocUpdate m t d) u = assocGet m u := by
  have htu : ¬ t = u := fun hh => h hh.symm
  induction m with
  | nil => simp [assocUpdate, assocGet, htu]
  | cons p m ih =>
    obtain ⟨k, e⟩ := p
    rw [assocUpdate]
    by_cases hk : k = t
    · subst hk
      rw [if_pos rfl]
      rw [assocGet, if_neg htu]
      rw [assocGet, if_neg htu]
    · rw [if_neg hk]
      by_cases hku : k = u
      · rw [assocGet, if_pos hku, assocGet, if_pos hku]
      · rw [assocGet, if_neg hku, assocGet, if_neg hku]
        exact ih

theorem assocGet_dictInit_aux (teamKeys : List TeamId) :
    ∀ (m : AllRecords) (t : TeamId),
      assocGet (teamKeys.foldl (fun m u => assocUpdate m u CountDict.empty) m) t =
        if t ∈ teamKeys then some CountDict.empty else assocGet m t := by
  induction teamKeys with
  | nil => intro m t; simp
  | cons u teamKeys ih =>
    intro m t
    rw [List.foldl_cons, ih]
    by_cases hmem : t ∈ teamKeys
    · rw [if_pos hmem, if_pos (by simp [hmem])]
    · rw [if_neg hmem]
      by_cases hu : t = u
      · subst hu
        rw [if_pos (by simp), assocGet_update_self]
      · rw [if_neg (by simp [hu, hmem]),
          assocGet_update_other m u CountDict.empty t hu]

theorem assocGet_dictInit (teamKeys : List TeamId) (t : TeamId) :
    assocGet (dictInit teamKeys) t =
      if t ∈ teamKeys then some CountDict.empty else none := by
  rw [dictInit, assocGet_dictInit_aux]
  rfl

theorem simStep_some (S : ScheduleSimmer) (teamKeys : List TeamId)
    (m : AllRecords) (t : TeamId) (d0 : CountDict) (recs : List Record)
    (h0 : assocGet m t = some d0)
    (hr : computeRecordsList S t (permuteSchedules t teamKeys) = some recs) :
    simStep S teamKeys m t =
      some (assocUpdate m t
        (printRecordsDict (recs.foldl CountDict.incr d0) S.nweeks)) := by
  rw [simStep, h0]
  show (match aggregateRecords S t (permuteSchedules t teamKeys) d0 with
        | none => none
        | some d1 => some (assocUpdate m t (printRecordsDict d1 S.nweeks))) = _
  rw [aggregateRecords_eq_fold S t _ recs d0 hr]

theorem simStep_none (S : ScheduleSimmer) (teamKeys : List TeamId)
    (m : AllRecords) (t : TeamId)
    (hr : computeRecordsList S t (permuteSchedules t teamKeys) = none) :
    simStep S teamKeys m t = none := by
  rw [simStep]
  split
  · rfl
  · rename_i d0 heq
    split
    · rfl
    · rename_i d1 heq2
      rw [aggregateRecords_none S t _ d0 hr] at heq2
      cases heq2

theorem simStep_inv (S : ScheduleSimmer) (teamKeys : List TeamId)
    (m : AllRecords) (t : TeamId) (m1 : AllRecords)
    (h : simStep S teamKeys m t = some m1) :
    ∃ d1, m1 = assocUpdate m t (printRecordsDict d1 S.nweeks) := by
  rw [simStep] at h
  split at h
  · cases h
  · split at h
    · cases h
    · rename_i d1 heq2
      exact ⟨d1, ((Option.some.injEq _ _).mp h).symm⟩

theorem simStep_frame (S : ScheduleSimmer) (teamKeys : List TeamId)
    (m m1 : AllRecords) (t u : TeamId) (h : simStep S teamKeys m t = some m1)
    (hu : u ≠ t) : assocGet m1 u = assocGet m u := by
  obtain ⟨d1, hd1⟩ := simStep_inv S teamKeys m t m1 h
  rw [hd1]
  exact assocGet_update_other m t _ u hu

theorem simLoop_frame (S : ScheduleSimmer) (teamKeys : List TeamId) :
    ∀ (pending : List TeamId) (m m1 : AllRecords) (t : TeamId),
      simLoop S teamKeys pending m = some m1 → t ∉ pending →
      assocGet m1 t = assocGet m t := by
  intro pending
  induction pending with
  | nil =>
    intro m m1 t h _
    simp only [simLoop, Option.some.injEq] at h
    subst h
    rfl
  | cons u pending ih =>
    intro m m1 t h ht
    rw [simLoop] at h
    split at h
    · cases h
    · rename_i m2 hstep
      have h1 : assocGet m1 t = assocGet m2 t :=
        ih m2 m1 t h (fun hc => ht (by simp [hc]))
      have h2 : assocGet m2 t = assocGet m t :=
        simStep_frame S teamKeys m m2 u t hstep (fun hc => ht (by simp [hc]))
      rw [h1, h2]

theorem simLoop_isSome (S : ScheduleSimmer) (teamKeys : List TeamId) :
    ∀ (pending : List TeamId) (m : AllRecords),
      (∀ t ∈ pending,
        (computeRecordsList S t (permuteSchedules t teamKeys)).isSome) →
      (∀ t ∈ pending, (assocGet m t).isSome) →
      ∃ m1, simLoop S teamKeys pending m = some m1 := by
  intro pending
  induction pending with
  | nil => intro m _ _; exact ⟨m, rfl⟩
  | cons u pending ih =>
    intro m hrecs hget
    obtain ⟨d0, hd0⟩ := Option.isSome_iff_exists.mp (hget u (by simp))
    obtain ⟨recs, hrecsu⟩ :=
      Option.isSome_iff_exists.mp (hrecs u (by simp))
    have hstep := simStep_some S teamKeys m u d0 recs hd0 hrecsu
    have hrecs2 : ∀ t ∈ pending,
        (computeRecordsList S t (permuteSchedules t teamKeys)).isSome :=
      fun t ht => hrecs t (by simp [ht])
    have hget2 : ∀ t ∈ pending,
        (assocGet (assocUpdate m u
          (printRecordsDict (recs.foldl CountDict.incr d0) S.nweeks)) t).isSome := by
      intro t ht
      by_cases hu : t = u
      · subst hu
        rw [assocGet_update_self]
        rfl
      · rw [assocGet_update_other m u _ t hu]
        exact hget t (by simp [ht])
    obtain ⟨m1, hm1⟩ := ih (assocUpdate m u
        (printRecordsDict (recs.foldl CountDict.incr d0) S.nweeks)) hrecs2 hget2
    refine ⟨m1, ?_⟩
    rw [simLoop, hstep]
    exact hm1

theorem simLoop_none (S : ScheduleSimmer) (teamKeys : List TeamId) :
    ∀ (pending : List TeamId) (m : AllRecords) (t : TeamId), t ∈ pending →
      computeRecordsList S t (permuteSchedules t teamKeys) = none →
      simLoop S teamKeys pending m = none := by
  intro pending
  induction pending with
  | nil => intro m t h; exact absurd h (by simp)
  | cons u pending ih =>
    intro m t hmem hnone
    rw [simLoop]
    rcases List.mem_cons.mp hmem with rfl | hmem
    · rw [simStep_none S teamKeys m t hnone]
    · split
      · rfl
      · rename_i m2 hstep
        exact ih m2 t hmem hnone

theorem simLoop_entry (S : ScheduleSimmer) (teamKeys : List TeamId) :
    ∀ (pending : List TeamId) (m : AllRecords) (t : TeamId) (recs : List Record),
      pending.Nodup → t ∈ pending →
      (∀ u ∈ pending,
        (computeRecordsList S u (permuteSchedules u teamKeys)).isSome) →
      (∀ u ∈ pending, (assocGet m u).isSome) →
      assocGet m t = some CountDict.empty →
      computeRecordsList S t (permuteSchedules t teamKeys) = some recs →
      ∃ m1, simLoop S teamKeys pending m = some m1 ∧
        assocGet m1 t =
          some (printRecordsDict (recs.foldl CountDict.incr CountDict.empty)
            S.nweeks) := by
  intro pending
  induction pending with
  | nil => intro m t recs _ h; exact absurd h (by simp)
  | cons u pending ih =>
    intro m t recs hnd hmem hrecs hget ht0 hrecst
    obtain ⟨hu_notin, hnd2⟩ := List.nodup_cons.mp hnd
    rcases List.mem_cons.mp hmem with rfl | hmem
    · have hstep := simStep_some S teamKeys m t CountDict.empty recs ht0 hrecst
      have hget2 : ∀ v ∈ pending,
          (assocGet (assocUpdate m t
            (printRecordsDict (recs.foldl CountDict.incr CountDict.empty)
              S.nweeks)) v).isSome := by
        intro v hv
        by_cases hvu : v = t
        · subst hvu
          rw [assocGet_update_self]
          rfl
        · rw [assocGet_update_other m t _ v hvu]
          exact hget v (by simp [hv])
      obtain ⟨m1, hm1⟩ := simLoop_isSome S teamKeys pending
        (assocUpdate m t
          (printRecordsDict (recs.foldl CountDict.incr CountDict.empty) S.nweeks))
        (fun v hv => hrecs v (by simp [hv])) hget2
      refine ⟨m1, ?_, ?_⟩
      · rw [simLoop, hstep]
        exact hm1
      · rw [simLoop_frame S teamKeys pending _ m1 t hm1 hu_notin,
          assocGet_update_self]
    · obtain ⟨d0, hd0⟩ := Option.isSome_iff_exists.mp (hget u (by simp))
      obtain ⟨recsu, hrecsu⟩ :=
        Option.isSome_iff_exists.mp (hrecs u (by simp))
      have hstep := simStep_some S teamKeys m u d0 recsu hd0 hrecsu
      have htu : t ≠ u := fun hc => hu_notin (hc ▸ hmem)
      obtain ⟨m1, hm1, hentry⟩ := ih
        (assocUpdate m u
          (printRecordsDict (recsu.foldl CountDict.incr d0) S.nweeks))
        t recs hnd2 hmem
        (fun v hv => hrecs v (by simp [hv]))
        (fun v hv => by
          by_cases hvu : v = u
          · subst hvu
            rw [assocGet_update_self]
            rfl
          · rw [assocGet_update_other m u _ v hvu]
            exact hget v (by simp [hv]))
        (by rw [assocGet_update_other m u _ t htu]; exact ht0)
        hrecst
      refine ⟨m1, ?_, hentry⟩
      rw [simLoop, hstep]
      exact hm1

theorem computeRecord_isSome_of_valid (S : ScheduleSimmer) (teamKeys : List TeamId)
    (hN : 2 ≤ S.nteams) (hlen : S.nteams = teamKeys.length)
    (hs : ScoresTotal S teamKeys) (u : TeamId) (hu : u ∈ teamKeys)
    (sched : List TeamId) (hsched : sched ∈ permuteSchedules u teamKeys) :
    (computeRecord S u sched).isSome := by
  have hperm := mem_permuteSchedules.mp hsched
  have hlen2 : sched.length = S.nteams - 1 := by
    rw [hperm.length_eq, List.length_erase_of_mem hu, hlen]
  obtain ⟨w, l, d, hrec, _⟩ := computeRecord_total S u sched hN hlen2
    (fun w h1 h2 => hs u hu w h1 h2)
    (fun opp hopp w h1 h2 =>
      hs opp (List.mem_of_mem_erase (hperm.subset hopp)) w h1 h2)
  rw [hrec]
  rfl

theorem recordsList_isSome_of_valid (S : ScheduleSimmer) (teamKeys : List TeamId)
    (hN : 2 ≤ S.nteams) (hlen : S.nteams = teamKeys.length)
    (hs : ScoresTotal S teamKeys) (u : TeamId) (hu : u ∈ teamKeys) :
    ∃ recs, computeRecordsList S u (permuteSchedules u teamKeys) = some recs ∧
      recs.length = Nat.factorial (S.nteams - 1) := by
  obtain ⟨recs, hrecs, hlen2⟩ := computeRecordsList_isSome S u
    (permuteSchedules u teamKeys)
    (fun sched hsched =>
      computeRecord_isSome_of_valid S teamKeys hN hlen hs u hu sched hsched)
  refine ⟨recs, hrecs, ?_⟩
  rw [hlen2, permuteSchedules_length u teamKeys hu, hlen]

theorem simulate_entry_of_valid (S : ScheduleSimmer) (teamKeys : List TeamId)
    (t : TeamId) (hnd : teamKeys.Nodup) (ht : t ∈ teamKeys)
    (hN : 2 ≤ S.nteams) (hlen : S.nteams = teamKeys.length)
    (hs : ScoresTotal S teamKeys) :
    ∃ m1 recs, simulateAllSchedules S teamKeys = some m1 ∧
      computeRecordsList S t (permuteSchedules t teamKeys) = some recs ∧
      recs.length = Nat.factorial (S.nteams - 1) ∧
      assocGet m1 t =
        some (printRecordsDict (recs.foldl CountDict.incr CountDict.empty)
          S.nweeks) := by
  obtain ⟨recs, hrecs, hreclen⟩ :=
    recordsList_isSome_of_valid S teamKeys hN hlen hs t ht
  have hsucc : ∀ u ∈ teamKeys,
      (computeRecordsList S u (permuteSchedules u teamKeys)).isSome := by
    intro u hu
    obtain ⟨r, hr, _⟩ := recordsList_isSome_of_valid S teamKeys hN hlen hs u hu
    rw [hr]
    rfl
  have hget : ∀ u ∈ teamKeys, (assocGet (dictInit teamKeys) u).isSome := by
    intro u hu
    rw [assocGet_dictInit, if_pos hu]
    rfl
  obtain ⟨m1, hm1, hentry⟩ := simLoop_entry S teamKeys teamKeys
    (dictInit teamKeys) t recs hnd ht hsucc hget
    (by rw [assocGet_dictInit, if_pos ht]) hrecs
  exact ⟨m1, recs, hm1, hrecs, hreclen, hentry⟩

theorem finalDict_cnt (recs : List Record) (nweeks : Nat) (r : Record) :
    (printRecordsDict (recs.foldl CountDict.incr CountDict.empty) nweeks).cnt r =
      recs.count r := by
  rw [printRecordsDict_eq_touch_fold, touch_fold_cnt, incr_fold_cnt]
  simp [CountDict.empty]

theorem finalDict_keys (recs : List Record) (nweeks : Nat) (r : Record) :
    r ∈ (printRecordsDict (recs.foldl CountDict.incr CountDict.empty) nweeks).keys ↔
      r ∈ recs ∨ r ∈ zeroTieRecords nweeks := by
  rw [printRecordsDict_eq_touch_fold, touch_fold_keys, incr_fold_keys]
  simp [CountDict.empty]

theorem finalDict_nodup (recs : List Record) (nweeks : Nat) :
    (printRecordsDict (recs.foldl CountDict.incr CountDict.empty) nweeks).keys.Nodup := by
  rw [printRecordsDict_eq_touch_fold]
  apply touch_fold_keys_nodup
  apply incr_fold_keys_nodup
  exact List.nodup_nil

theorem finalDict_sumCounts (recs : List Record) (nweeks : Nat) :
    (printRecordsDict (recs.foldl CountDict.incr CountDict.empty) nweeks).sumCounts =
      recs.length := by
  apply sumCounts_eq_length _ recs
  · exact finalDict_cnt recs nweeks
  · intro r hr
    exact (finalDict_keys recs nweeks r).mpr (Or.inl hr)
  · exact finalDict_nodup recs nweeks

/-- C1: for every valid input (distinct team keys, score table total on the
listed teams for weeks 1..W, W ≥ 1, N ≥ 2 with N the number of teams), and
for every team, the counts of the RecordDistribution that
simulate_all_schedules returns for that team sum to exactly (N-1)!. -/
theorem claim1_sum_counts_eq_factorial (S : ScheduleSimmer)
    (teamKeys : List TeamId) (t : TeamId) (hnd : teamKeys.Nodup)
    (ht : t ∈ teamKeys) (hN : 2 ≤ S.nteams)
    (hlen : S.nteams = teamKeys.length) (hW : 1 ≤ S.nweeks)
    (hs : ScoresTotal S teamKeys) :
    ∃ m d, simulateAllSchedules S teamKeys = some m ∧ assocGet m t = some d ∧
      d.sumCounts = Nat.factorial (S.nteams - 1) := by
  obtain ⟨m1, recs, hm1, hrecs, hreclen, hentry⟩ :=
    simulate_entry_of_valid S teamKeys t hnd ht hN hlen hs
  refine ⟨m1, _, hm1, hentry, ?_⟩
  rw [finalDict_sumCounts, hreclen]

/-- Witness for C1 at the concrete three-team, one-week league. -/
theorem claim1_witness :
    ∃ m d, simulateAllSchedules exSimmer exKeys = some m ∧
      assocGet m 0 = some d ∧
      d.sumCounts = Nat.factorial (exSimmer.nteams - 1) :=
  claim1_sum_counts_eq_factorial exSimmer exKeys 0 (by decide) (by decide)
    (by decide) (by decide) (by decide) (fun _ _ _ _ _ => rfl)

/-- C2 (code bug): on a valid three-team, one-week input the sequential mode
returns distributions while the parallel mode raises KeyError inside
print_records_dict (the rebuilt per-team mapping is a plain dict missing the
zero-count zero-tie records the reporting loop reads) and returns nothing,
so the two modes do not produce identical RecordDistributions. -/
theorem claim2_parallel_mode_crashes_on_failing_input :
    (simulateAllSchedules exSimmer exKeys).isSome = true ∧
      (simulateAllSchedulesPoolseasons exSimmer exKeys).isNone = true :=
  ⟨by decide, by decide⟩

/-- C3 counterexample: with team 2's score missing, the simulation aborts
abnormally, but only after fully processing one schedule of the focal team:
enumeration (factorial-cost work) does start on the invalid input, refuting
the claimed eager validation pass. -/
theorem claim3_counterexample_lazy_failure :
    (simulateAllSchedules exSimmerMissing exKeys).isNone = true ∧
      processedBeforeError exSimmerMissing 0 exKeys = 1 :=
  ⟨by decide, by decide⟩

/-- C3 (amended): a missing score makes the affected schedule's record
computation fail, and that failure aborts simulate_all_schedules from inside
the per-schedule loop; there is no MissingScoreError and no eager validation
pass before enumeration. -/
theorem claim3_amended_missing_score_fails_lazily (S : ScheduleSimmer)
    (teamKeys : List TeamId) (t : TeamId) (sched : List TeamId)
    (ht : t ∈ teamKeys) (hsched : sched ∈ permuteSchedules t teamKeys)
    (hfail : computeRecord S t sched = none) :
    simulateAllSchedules S teamKeys = none := by
  have h := simLoop_none S teamKeys teamKeys (dictInit teamKeys) t ht
    (computeRecordsList_none S t (permuteSchedules t teamKeys) sched hsched hfail)
  exact h

/-- Witness for the amended C3 at the concrete input with a missing score. -/
theorem claim3_witness : simulateAllSchedules exSimmerMissing exKeys = none :=
  claim3_amended_missing_score_fails_lazily exSimmerMissing exKeys 0 [2, 1]
    (by decide) (by decide) (by decide)

/-- C4: with both scores defined, compute_h2h_result returns a triple of
which exactly one component is true, aWins iff A's score strictly exceeds
B's, tie iff they are equal, bWins iff B's strictly exceeds A's. -/
theorem claim4_h2h_exactly_one (S : ScheduleSimmer) (a b : TeamId) (w : Nat)
    (sa sb : Score) (ha : S.scores a w = some sa)
    (hb : S.scores b w = some sb) :
    ∃ aWins bWins tie : Bool,
      computeH2hResult S a b w = some (aWins, bWins, tie) ∧
      aWins.toNat + bWins.toNat + tie.toNat = 1 ∧
      (aWins = true ↔ sb < sa) ∧ (bWins = true ↔ sa < sb) ∧
      (tie = true ↔ sa = sb) := by
  refine ⟨_, _, _, computeH2hResult_eq S a b w sa sb ha hb, ?_, ?_, ?_, ?_⟩
  · rcases lt_trichotomy sa sb with h | h | h
    · simp [h, h.ne, h.asymm]
    · simp [h]
    · simp [h, h.ne', h.asymm]
  · simp
  · simp
  · simp

/-- Witness for C4 at teams 0 and 1 of the example league in week 1. -/
theorem claim4_witness :
    ∃ aWins bWins tie : Bool,
      computeH2hResult exSimmer 0 1 1 = some (aWins, bWins, tie) ∧
      aWins.toNat + bWins.toNat + tie.toNat = 1 ∧
      (aWins = true ↔ (2 : Score) < 3) ∧ (bWins = true ↔ (3 : Score) < 2) ∧
      (tie = true ↔ (3 : Score) = 2) :=
  claim4_h2h_exactly_one exSimmer 0 1 1 3 2 (by decide) (by decide)

/-- C5: with both scores defined, compute_h2h_result(A,B,w) and
compute_h2h_result(B,A,w) are mirrors: aWins and bWins swap and tie is
invariant. -/
theorem claim5_h2h_swap_mirror (S : ScheduleSimmer) (a b : TeamId) (w : Nat)
    (ha : (S.scores a w).isSome) (hb : (S.scores b w).isSome) :
    ∃ x y z : Bool, computeH2hResult S a b w = some (x, y, z) ∧
      computeH2hResult S b a w = some (y, x, z) := by
  obtain ⟨sa, ha⟩ := Option.isSome_iff_exists.mp ha
  obtain ⟨sb, hb⟩ := Option.isSome_iff_exists.mp hb
  refine ⟨_, _, _, computeH2hResult_eq S a b w sa sb ha hb, ?_⟩
  rw [computeH2hResult_eq S b a w sb sa hb ha]
  rw [show (decide (sb = sa)) = decide (sa = sb) by simp [eq_comm]]

/-- Witness for C5 at teams 0 and 1 of the example league in week 1. -/
theorem claim5_witness :
    ∃ x y z : Bool, computeH2hResult exSimmer 0 1 1 = some (x, y, z) ∧
      computeH2hResult exSimmer 1 0 1 = some (y, x, z) :=
  claim5_h2h_swap_mirror exSimmer 0 1 1 (by decide) (by decide)

/-- C6: for a focal team in a duplicate-free team list of size N,
permute_schedules yields exactly (N-1)! pairwise-distinct orderings, each an
ordering of the list minus the focal team; as a pure function of its
arguments the sequence is deterministic and identical on re-invocation. -/
theorem claim6_enumerator_spec (teamid : TeamId) (allteamids : List TeamId)
    (hnd : allteamids.Nodup) (ht : teamid ∈ allteamids) :
    (permuteSchedules teamid allteamids).length =
        Nat.factorial (allteamids.length - 1) ∧
      (permuteSchedules teamid allteamids).Nodup ∧
      ∀ s ∈ permuteSchedules teamid allteamids,
        s.Perm (allteamids.erase teamid) :=
  ⟨permuteSchedules_length teamid allteamids ht,
   permuteSchedules_nodup hnd,
   fun _ hs => mem_permuteSchedules.mp hs⟩

/-- Witness for C6 at the concrete three-team list. -/
theorem claim6_witness :
    (permuteSchedules 0 exKeys).length = Nat.factorial (exKeys.length - 1) ∧
      (permuteSchedules 0 exKeys).Nodup ∧
      ∀ s ∈ permuteSchedules 0 exKeys, s.Perm (exKeys.erase 0) :=
  claim6_enumerator_spec 0 exKeys (by decide) (by decide)

/-- C7: whenever all needed scores are defined, the season is at least one
week, and the schedule lists the N-1 opponents, compute_record returns a
record whose wins, losses and ties sum to exactly numWeeks. -/
theorem claim7_record_sum_weeks (S : ScheduleSimmer) (teamKey : TeamId)
    (schedule : List TeamId) (hN : 2 ≤ S.nteams) (hW : 1 ≤ S.nweeks)
    (hlen : schedule.length = S.nteams - 1)
    (hsT : ∀ w, 1 ≤ w → w ≤ S.nweeks → (S.scores teamKey w).isSome)
    (hsO : ∀ opp ∈ schedule, ∀ w, 1 ≤ w → w ≤ S.nweeks →
      (S.scores opp w).isSome) :
    ∃ w l d : Nat, computeRecord S teamKey schedule = some (w, l, d) ∧
      w + l + d = S.nweeks :=
  computeRecord_total S teamKey schedule hN hlen hsT hsO

/-- Witness for C7 at the concrete league and schedule [1, 2]. -/
theorem claim7_witness :
    ∃ w l d : Nat, computeRecord exSimmer 0 [1, 2] = some (w, l, d) ∧
      w + l + d = exSimmer.nweeks :=
  claim7_record_sum_weeks exSimmer 0 [1, 2] (by decide) (by decide)
    (by decide) (fun _ _ _ => rfl) (fun _ _ _ _ _ => rfl)

/-- C8: compute_record resolves week w against schedule[(w-1) % (N-1)]
(stated as equality with the week-numbered reformulation built on
opponentOfWeek), and the opponent assignment cycles: week w faces the same
opponent as week ((w-1) % (N-1)) + 1. -/
theorem claim8_opponent_cycles (S : ScheduleSimmer) (teamKey : TeamId)
    (schedule : List TeamId) :
    computeRecord S teamKey schedule = computeRecordWeeks S teamKey schedule ∧
      ∀ w, 1 ≤ w →
        opponentOfWeek S schedule w =
          opponentOfWeek S schedule ((w - 1) % (S.nteams - 1) + 1) := by
  refine ⟨computeRecord_eq_weeks S teamKey schedule, ?_⟩
  intro w hw
  rw [opponentOfWeek, opponentOfWeek, Nat.add_sub_cancel,
    Nat.mod_mod_of_dvd _ dvd_rfl]

/-- Witness for C8 at the concrete league, schedule [1, 2] and week 5. -/
theorem claim8_witness :
    computeRecord exSimmer 0 [1, 2] = computeRecordWeeks exSimmer 0 [1, 2] ∧
      opponentOfWeek exSimmer [1, 2] 5 =
        opponentOfWeek exSimmer [1, 2] ((5 - 1) % (exSimmer.nteams - 1) + 1) :=
  ⟨(claim8_opponent_cycles exSimmer 0 [1, 2]).1,
   (claim8_opponent_cycles exSimmer 0 [1, 2]).2 5 (by decide)⟩

/-- C9 counterexample: on the duplicated team list [0, 0, 1] no error is
raised: the simulation runs to completion, and the duplicated team's
distribution holds 4 counted schedules (two full passes over its 2
permutations), so simulation work is performed rather than prevented. -/
theorem claim9_counterexample_duplicates_accepted :
    (simulateAllSchedules exSimmer exKeysDup).isSome = true ∧
      (simulateAllSchedules exSimmer exKeysDup).map
        (fun m => (assocGet m 0).map CountDict.sumCounts) = some (some 4) :=
  ⟨by decide, by decide⟩

/-- C9 (amended): the code performs no duplicate check: for any team list,
with or without duplicates, simulate_all_schedules completes normally as
long as scores are defined, the team count matches the list length and
N ≥ 2 (a duplicated focal team simply stays in its own opponent pool). -/
theorem claim9_amended_no_duplicate_check (S : ScheduleSimmer)
    (teamKeys : List TeamId) (hN : 2 ≤ S.nteams)
    (hlen : S.nteams = teamKeys.length) (hs : ScoresTotal S teamKeys) :
    (simulateAllSchedules S teamKeys).isSome := by
  have hsucc : ∀ u ∈ teamKeys,
      (computeRecordsList S u (permuteSchedules u teamKeys)).isSome := by
    intro u hu
    obtain ⟨r, hr, _⟩ := recordsList_isSome_of_valid S teamKeys hN hlen hs u hu
    rw [hr]
    rfl
  have hget : ∀ u ∈ teamKeys, (assocGet (dictInit teamKeys) u).isSome := by
    intro u hu
    rw [assocGet_dictInit, if_pos hu]
    rfl
  obtain ⟨m1, hm1⟩ :=
    simLoop_isSome S teamKeys teamKeys (dictInit teamKeys) hsucc hget
  rw [simulateAllSchedules, hm1]
  rfl

/-- Witness for the amended C9 at the duplicated team list. -/
theorem claim9_witness : (simulateAllSchedules exSimmer exKeysDup).isSome :=
  claim9_amended_no_duplicate_check exSimmer exKeysDup (by decide) (by decide)
    (fun _ _ _ _ _ => rfl)

/-- C10: under the validity hypotheses, the distribution returned for a team
contains an entry for every zero-tie record (w, W - w, 0) with w ≤ W, and
when no schedule produced that record its stored count is 0: the
defaultdict reads in print_records_dict insert these keys before the
mapping is returned. -/
theorem claim10_zero_padding_entries (S : ScheduleSimmer)
    (teamKeys : List TeamId) (t : TeamId) (hnd : teamKeys.Nodup)
    (ht : t ∈ teamKeys) (hN : 2 ≤ S.nteams)
    (hlen : S.nteams = teamKeys.length) (hW : 1 ≤ S.nweeks)
    (hs : ScoresTotal S teamKeys) :
    ∃ m d, simulateAllSchedules S teamKeys = some m ∧ assocGet m t = some d ∧
      ∀ w ≤ S.nweeks, (w, S.nweeks - w, 0) ∈ d.keys ∧
        ((∀ sched ∈ permuteSchedules t teamKeys,
            computeRecord S t sched ≠ some (w, S.nweeks - w, 0)) →
          d.cnt (w, S.nweeks - w, 0) = 0) := by
  obtain ⟨m1, recs, hm1, hrecs, hreclen, hentry⟩ :=
    simulate_entry_of_valid S teamKeys t hnd ht hN hlen hs
  refine ⟨m1, _, hm1, hentry, ?_⟩
  intro w hw
  constructor
  · apply (finalDict_keys recs S.nweeks _).mpr
    right
    rw [zeroTieRecords]
    simp only [List.mem_map, List.mem_range]
    exact ⟨w, by omega, rfl⟩
  · intro hno
    rw [finalDict_cnt]
    have hnotmem : (w, S.nweeks - w, 0) ∉ recs := by
      intro hmem
      obtain ⟨sched, hsched, hrec⟩ :=
        (mem_computeRecordsList S t _ recs hrecs _).mp hmem
      exact hno sched hsched hrec
    exact List.count_eq_zero.mpr hnotmem

/-- Witness for C10 at the concrete league: for team 0 the zero-tie record
(0, 1, 0) is produced by no schedule yet carries a zero-count entry. -/
theorem claim10_witness :
    ∃ m d, simulateAllSchedules exSimmer exKeys = some m ∧
      assocGet m 0 = some d ∧
      ∀ w ≤ exSimmer.nweeks, (w, exSimmer.nweeks - w, 0) ∈ d.keys ∧
        ((∀ sched ∈ permuteSchedules 0 exKeys,
            computeRecord exSimmer 0 sched ≠
              some (w, exSimmer.nweeks - w, 0)) →
          d.cnt (w, exSimmer.nweeks - w, 0) = 0) :=
  claim10_zero_padding_entries exSimmer exKeys 0 (by decide) (by decide)
    (by decide) (by decide) (by decide) (fun _ _ _ _ _ => rfl)
